import Mathlib

/-!
Verification of the DynAIkonTrap filtering pipeline.

The definitions below are a shallow embedding of the Python sources
`DynAIkonTrap/filtering/motion_queue.py`, `DynAIkonTrap/filtering/filtering.py`,
`DynAIkonTrap/filtering/motion.py`, `DynAIkonTrap/filtering/iir.py` and
`DynAIkonTrap/camera_to_disk.py`.  Python floats are modelled as exact
rationals, machine ints as `Int`/`Nat`, fallible operations as `Option`.
-/

set_option maxHeartbeats 1000000

/-- Categories into which a frame can fall (`Label` in motion_queue.py). -/
inductive Label where
  | EMPTY
  | ANIMAL
  | UNKNOWN
  | CONTEXT
deriving DecidableEq, Repr

/-- Categories for the motion status of a frame (`MotionStatus` in motion_queue.py). -/
inductive MotionStatus where
  | STILL
  | MOTION
  | UNKNOWN
deriving DecidableEq, Repr

/-- A frame of motion and image data with labels (`LabelledFrame` in motion_queue.py).
The image payload `frame` is abstracted to a natural-number identifier; `priority`
is the Python float motion score, modelled as an exact rational. -/
structure LabelledFrame where
  frame : Nat
  index : Nat
  priority : Rat
  label : Label := Label.UNKNOWN
  motion_status : MotionStatus := MotionStatus.UNKNOWN
deriving DecidableEq, Repr

/-- Label of the frame stored at position `j` of a frame list, if any. -/
def labelAt (l : List LabelledFrame) (j : Nat) : Option Label :=
  l[j]?.map LabelledFrame.label

/-- Effect of `Sequence._label` on one frame: set the label and priority -1. -/
def set_label (v : Label) (fr : LabelledFrame) : LabelledFrame :=
  { fr with label := v, priority := -1 }

/-- Apply `Sequence._label(frames[a:b], v)`: every frame whose position lies in
the half-open interval `[a, b)` gets label `v` and priority -1. -/
def label_range (v : Label) (a b : Nat) (l : List LabelledFrame) : List LabelledFrame :=
  l.enum.map (fun p => if a ≤ p.1 ∧ p.1 < b then set_label v p.2 else p.2)

/-- Index of the first element satisfying `p`, if any (helper used to embed the
linear scans of `get_first_animal_index` / `get_last_animal_index`). -/
def find_index (p : LabelledFrame → Bool) : List LabelledFrame → Option Nat
  | [] => none
  | fr :: rest => if p fr then some 0 else (find_index p rest).map (· + 1)

/-- Embedding of `Sequence.get_first_animal_index`: the scan keeps the default
value 0 when no frame is labelled ANIMAL. -/
def get_first_animal_index (l : List LabelledFrame) : Nat :=
  (find_index (fun fr => fr.label == Label.ANIMAL) l).getD 0

/-- Embedding of `Sequence.get_last_animal_index`: the source scans
`reversed(list(enumerate(frames)))` and keeps the default `len(frames)` when no
frame is labelled ANIMAL.  The first hit of the reversed scan at reverse
position `k` is original position `len - 1 - k`. -/
def get_last_animal_index (l : List LabelledFrame) : Nat :=
  match find_index (fun fr => fr.label == Label.ANIMAL) l.reverse with
  | some k => l.length - 1 - k
  | none => l.length

/-- Embedding of `Sequence.label_as_animal`: the source labels the slice
`frames[max(index - smoothing_len, 0) : min(index + smoothing_len, len) + 1]`. -/
def label_as_animal (smoothing_len idx : Nat) (l : List LabelledFrame) : List LabelledFrame :=
  label_range Label.ANIMAL (idx - smoothing_len) (min (idx + smoothing_len) l.length + 1) l

/-- Embedding of `Sequence.label_as_empty`: only the single given frame (identified
by its position, which equals its `index` field for frames built by `Sequence.put`)
is labelled EMPTY. -/
def label_as_empty (idx : Nat) (l : List LabelledFrame) : List LabelledFrame :=
  label_range Label.EMPTY idx (idx + 1) l

/-- Embedding of `Sequence.add_context`: CONTEXT labels are written over the slice
`frames[max(first - context_len, 0) : first]` and the slice
`frames[last + 1 : min(last + context_len, len)]`. -/
def add_context (context_len : Nat) (l : List LabelledFrame) : List LabelledFrame :=
  let first := get_first_animal_index l
  let last := get_last_animal_index l
  let l1 := label_range Label.CONTEXT (first - context_len) first l
  label_range Label.CONTEXT (last + 1) (min (last + context_len) l1.length) l1

/-- Embedding of `Sequence.get_animal_or_context_frames`. -/
def get_animal_or_context_frames (l : List LabelledFrame) : List LabelledFrame :=
  l.filter (fun fr => fr.label = Label.ANIMAL ∨ fr.label = Label.CONTEXT)

/-- Embedding of the output step of `MotionLabelledQueue._process_queue`:
`output = [fr.frame for fr in animal-or-context frames]`, and a `None` sentinel is
appended only when `output` is non-empty; every element is then emitted. -/
def sequence_output (l : List LabelledFrame) : List (Option Nat) :=
  let out := (get_animal_or_context_frames l).map (fun fr => some fr.frame)
  if out.length > 0 then out ++ [none] else out

/-- Embedding of Python `max(frames, key=lambda frame: frame.priority)`: the first
frame of maximal priority (`max` keeps the earliest maximum); `none` on the empty
list (where the Python call would raise `ValueError`). -/
def max_by_priority (l : List LabelledFrame) : Option LabelledFrame :=
  l.foldl
    (fun acc fr =>
      match acc with
      | none => some fr
      | some b => if b.priority < fr.priority then some fr else some b)
    none

/-- Embedding of `Sequence.get_highest_priority`: the maximal-priority frame is
returned unless its motion status is STILL, in which case the result is `None`. -/
def get_highest_priority (l : List LabelledFrame) : Option LabelledFrame :=
  match max_by_priority l with
  | none => none
  | some b => if b.motion_status = MotionStatus.STILL then none else some b

/-- Run `n` successive `get_highest_priority` calls on a sequence, labelling each
returned frame EMPTY via `label_as_empty` (as `_process_queue` does on a negative
classification); records the index of each returned frame, `none` for a `None`
return. -/
def run_calls : Nat → List LabelledFrame → List (Option Nat) × List LabelledFrame
  | 0, l => ([], l)
  | n + 1, l =>
    match get_highest_priority l with
    | none =>
      let rest := run_calls n l
      (none :: rest.1, rest.2)
    | some fr =>
      let rest := run_calls n (label_as_empty fr.index l)
      (some fr.index :: rest.1, rest.2)

/-- Build a sequence of MOTION-status frames with the given priorities, as produced
by successive `Sequence.put` calls. -/
def motion_frames_of_priorities (ps : List Rat) : List LabelledFrame :=
  ps.enum.map (fun p =>
    { frame := p.1, index := p.1, priority := p.2, label := Label.UNKNOWN,
      motion_status := MotionStatus.MOTION })

/-- Build a sequence of frames with the given labels (UNKNOWN motion status,
priority 0), for concrete test sequences. -/
def frames_of_labels (vs : List Label) : List LabelledFrame :=
  vs.enum.map (fun p =>
    { frame := p.1, index := p.1, priority := 0, label := p.2,
      motion_status := MotionStatus.UNKNOWN })

/-- Build a sequence of `n` UNKNOWN-labelled frames. -/
def unknown_frames (n : Nat) : List LabelledFrame :=
  (List.range n).map (fun i =>
    { frame := i, index := i, priority := 0, label := Label.UNKNOWN,
      motion_status := MotionStatus.UNKNOWN })

/-- A pair of ring buffers with a cumulative byte counter (`VideoRAMBuffer` in
camera_to_disk.py; `MotionRAMBuffer` has the same `switch_stream` and the same
`_bytes_written += _active_stream.write(...)` write path).  The two
`PiCameraCircularIO` streams are modelled as byte lists; `write` on such a stream
appends and returns the number of bytes written. -/
structure VideoRAMBuffer where
  active_stream : List Nat
  inactive_stream : List Nat
  bytes_written : Nat
deriving DecidableEq, Repr

/-- Embedding of `VideoRAMBuffer.write`: write the buffer to the active stream and
add the returned byte count to `_bytes_written`. -/
def VideoRAMBuffer.write (b : VideoRAMBuffer) (buf : List Nat) : VideoRAMBuffer :=
  { b with active_stream := b.active_stream ++ buf,
           bytes_written := b.bytes_written + buf.length }

/-- Embedding of `VideoRAMBuffer.switch_stream` (identical in `MotionRAMBuffer`):
the two stream references are swapped; nothing else changes. -/
def VideoRAMBuffer.switch_stream (b : VideoRAMBuffer) : VideoRAMBuffer :=
  { b with active_stream := b.inactive_stream,
           inactive_stream := b.active_stream }

/-- Embedding of `VideoRAMBuffer.clear_inactive_stream`: the inactive stream's
contents are deleted. -/
def VideoRAMBuffer.clear_inactive_stream (b : VideoRAMBuffer) : VideoRAMBuffer :=
  { b with inactive_stream := [] }

/-- Worker loop body of `Sequence.close_gaps`: walk the frame list from position
`i` keeping the position of the last ANIMAL frame and the count of EMPTY/UNKNOWN
frames seen since it; on reaching an ANIMAL frame with a gap of at most
`2 * smoothing_len`, relabel the slice `frames[i - gap : i]` as ANIMAL.  `fuel` is
the number of remaining loop iterations; the top-level call supplies the list
length, which makes the recursion exhaust the list exactly. -/
def close_gaps_go (smoothing_len : Nat) (fuel : Nat) (i : Nat) (last_animal : Option Nat)
    (gap : Nat) (l : List LabelledFrame) : List LabelledFrame :=
  match fuel with
  | 0 => l
  | fuel + 1 =>
    match l[i]? with
    | none => l
    | some fr =>
      if fr.label = Label.ANIMAL then
        let l2 := if gap ≤ smoothing_len * 2 then label_range Label.ANIMAL (i - gap) i l else l
        close_gaps_go smoothing_len fuel (i + 1) (some i) 0 l2
      else if fr.label = Label.EMPTY ∨ fr.label = Label.UNKNOWN then
        close_gaps_go smoothing_len fuel (i + 1) last_animal
          (if last_animal.isSome then gap + 1 else gap) l
      else
        close_gaps_go smoothing_len fuel (i + 1) last_animal gap l

/-- Embedding of `Sequence.close_gaps`. -/
def close_gaps (smoothing_len : Nat) (l : List LabelledFrame) : List LabelledFrame :=
  close_gaps_go smoothing_len l.length 0 none 0 l

/-- Check whether position `j` of the list holds an ANIMAL-labelled frame. -/
def is_animal_at (l : List LabelledFrame) (j : Nat) : Bool :=
  match l[j]? with
  | some fr => fr.label == Label.ANIMAL
  | none => false

/-- Check whether position `j` of the list holds an EMPTY- or UNKNOWN-labelled
frame (the labels `close_gaps` counts as a gap). -/
def is_gap_at (l : List LabelledFrame) (j : Nat) : Bool :=
  match l[j]? with
  | some fr => fr.label == Label.EMPTY || fr.label == Label.UNKNOWN
  | none => false

/-- Specification-side predicate for `close_gaps`, with the closing ANIMAL frame
restricted to positions below `bound`: position `j` lies strictly inside a maximal
run of EMPTY/UNKNOWN frames that is delimited by ANIMAL frames at positions `a`
and `b` and whose length `b - a - 1` is at most `2 * smoothing_len`. -/
def promoted_before (smoothing_len : Nat) (l : List LabelledFrame) (bound j : Nat) : Bool :=
  (List.range bound).any (fun b =>
    decide (j < b) && is_animal_at l b &&
      (List.range j).any (fun a =>
        is_animal_at l a &&
          ((List.range b).all (fun k => !(decide (a < k)) || is_gap_at l k)) &&
          decide (b - a - 1 ≤ 2 * smoothing_len)))

/-- Specification-side predicate for `close_gaps`: position `j` lies strictly
inside a maximal EMPTY/UNKNOWN run between two ANIMAL frames, of length at most
`2 * smoothing_len`. -/
def promoted (smoothing_len : Nat) (l : List LabelledFrame) (j : Nat) : Bool :=
  promoted_before smoothing_len l l.length j

/-- Second-order IIR filter stage (`IIR2Filter` in iir.py).  The six SOS
coefficients come from `scipy.signal.cheby2` and are treated as arbitrary
rationals; the taps start at 0. -/
structure IIR2Filter where
  b0 : Rat
  b1 : Rat
  b2 : Rat
  a0 : Rat
  a1 : Rat
  a2 : Rat
  tap1 : Rat := 0
  tap2 : Rat := 0
deriving DecidableEq, Repr

/-- Embedding of `IIR2Filter.filter`: one direct-form-II step; returns the output
sample and the updated stage. -/
def IIR2Filter.filter (s : IIR2Filter) (x : Rat) : Rat × IIR2Filter :=
  let output := s.b1 * s.tap1
  let x1 := x - s.a1 * s.tap1
  let output := output + s.b2 * s.tap2
  let x2 := x1 - s.a2 * s.tap2
  let output := output + x2 * s.b0
  (output, { s with tap2 := s.tap1, tap1 := x2 })

/-- IIR filter built as a chain of second-order stages (`IIRFilter` in iir.py). -/
structure IIRFilter where
  iir2filters : List IIR2Filter
deriving DecidableEq, Repr

/-- Embedding of `IIRFilter.filter`: thread the sample through every stage. -/
def IIRFilter.filter (f : IIRFilter) (x : Rat) : Rat × IIRFilter :=
  let r := f.iir2filters.foldl
    (fun (acc : Rat × List IIR2Filter) st =>
      let o := st.filter acc.1
      (o.1, acc.2 ++ [o.2]))
    (x, [])
  (r.1, ⟨r.2⟩)

/-- State predicate: every stage of the filter has both taps equal to zero, as in
a freshly constructed `IIRFilter` (or one just `reset`). -/
def zero_taps (f : IIRFilter) : Prop :=
  ∀ st ∈ f.iir2filters, st.tap1 = 0 ∧ st.tap2 = 0

/-- Motion filter state (`MotionFilter` in motion.py).  `threshold_small` is the
integer `small_threshold` setting, `threshold_sotv` the SoTV threshold. -/
structure MotionFilter where
  threshold_small : Int
  threshold_sotv : Rat
  x_iir_filter : IIRFilter
  y_iir_filter : IIRFilter
deriving DecidableEq, Repr

/-- Embedding of `MotionFilter.run_raw` up to the final square root: a motion
frame is a flattened grid of integer vectors `(x, y)`; vectors whose magnitude
`sqrt(x^2 + y^2)` is at most `threshold_small` are zeroed (the source keeps a
vector iff `sqrt(x^2 + y^2) > threshold_small`, i.e. iff `threshold_small < 0` or
`threshold_small^2 < x^2 + y^2`), the surviving components are summed, and each
sum is passed through its IIR filter.  The source returns
`sqrt(x_sum^2 + y_sum^2)`; this function returns that value squared (which is 0
exactly when `run_raw` returns 0.0), together with the updated filter state. -/
def MotionFilter.run_raw_sq (mf : MotionFilter) (motion_frame : List (Int × Int)) :
    Rat × MotionFilter :=
  let filtered := motion_frame.map (fun v =>
    if mf.threshold_small < 0 ∨ mf.threshold_small ^ 2 < v.1 ^ 2 + v.2 ^ 2 then v else (0, 0))
  let x_sum : Int := (filtered.map Prod.fst).sum
  let y_sum : Int := (filtered.map Prod.snd).sum
  let xr := mf.x_iir_filter.filter (x_sum : Rat)
  let yr := mf.y_iir_filter.filter (y_sum : Rat)
  (xr.1 ^ 2 + yr.1 ^ 2, { mf with x_iir_filter := xr.2, y_iir_filter := yr.2 })

/-- Embedding of `MotionFilter.run`: `run_raw(frame) >= threshold_sotv`.  Since
`run_raw` is the nonnegative square root of `run_raw_sq`, the comparison holds
exactly when `threshold_sotv <= 0` or `threshold_sotv^2 <= run_raw_sq`. -/
def MotionFilter.run (mf : MotionFilter) (motion_frame : List (Int × Int)) :
    Bool × MotionFilter :=
  let r := mf.run_raw_sq motion_frame
  (decide (mf.threshold_sotv ≤ 0 ∨ mf.threshold_sotv ^ 2 ≤ r.1), r.2)

/-- Feed a sequence of motion frames through the filter, collecting the squared
`run_raw` outputs, the `run` outputs and the final state. -/
def MotionFilter.run_seq (mf : MotionFilter) :
    List (List (Int × Int)) → List Rat × List Bool × MotionFilter
  | [] => ([], [], mf)
  | motion_frame :: rest =>
    let sq := mf.run_raw_sq motion_frame
    let b := mf.run motion_frame
    let tail := sq.2.run_seq rest
    (sq.1 :: tail.1, b.1 :: tail.2.1, tail.2.2)

/-- Embedding of the normalized-cutoff computation and clamping in
`MotionFilter.__init__`: `wn = cutoff / (framerate / 2)` is replaced by `1e-10`
when `wn <= 0` and by `1 - 1e-10` when `wn >= 1`, and an error is logged in those
two cases (second component `true`).  The float literal `1e-10` is modelled by the
rational `1 / 10^10`. -/
def motion_filter_wn (iir_cutoff_hz framerate : Rat) : Rat × Bool :=
  if iir_cutoff_hz / (framerate / 2) ≤ 0 then (1 / 10 ^ 10, true)
  else if iir_cutoff_hz / (framerate / 2) ≥ 1 then (1 - 1 / 10 ^ 10, true)
  else (iir_cutoff_hz / (framerate / 2), false)

/-- Rounding mode of `numpy.round` and Python `round`: round half to even. -/
def round_half_even (q : Rat) : Int :=
  let f := ⌊q⌋
  let r := q - (f : Rat)
  if r < 1 / 2 then f
  else if 1 / 2 < r then f + 1
  else if f % 2 = 0 then f else f + 1

/-- Embedding of `numpy.linspace(a, b, num)` with the default inclusive endpoint:
an empty list for `num = 0`, `[a]` for `num = 1`, and otherwise `num` evenly
spaced values from `a` to `b`. -/
def np_linspace (a b : Rat) (num : Nat) : List Rat :=
  match num with
  | 0 => []
  | 1 => [a]
  | n + 2 => (List.range (n + 2)).map (fun i => a + i * (b - a) / (n + 1))

/-- Distance between two positions, `abs(middle_idx - i)` in the source. -/
def nat_dist (m i : Nat) : Nat :=
  ((m : Int) - (i : Int)).natAbs

/-- The frame indices selected by `Filter._process_event` for a positive
`detector_fraction`: `int(round(index))` for `index` in
`linspace(0, N - 1, int(round(N * detector_fraction)))`. -/
def selected_indices (n : Nat) (detector_fraction : Rat) : List Nat :=
  (np_linspace 0 ((n : Rat) - 1) (round_half_even ((n : Rat) * detector_fraction)).toNat).map
    (fun q => (round_half_even q).toNat)

/-- Classification loop of `Filter._process_event`: run the classifier on each
index in turn, stopping at the first positive.  Returns the overall result and
the list of indices actually classified, in order. -/
def spiral (classifier : Nat → Bool) : List Nat → Bool × List Nat
  | [] => (false, [])
  | i :: rest =>
    if classifier i then (true, [i])
    else
      let r := spiral classifier rest
      (r.1, i :: r.2)

/-- Specification-side description of the `spiral` trace: all leading negative
indices, then the first positive index if there is one. -/
def spiral_trace_spec (classifier : Nat → Bool) (l : List Nat) : List Nat :=
  l.takeWhile (fun i => !(classifier i)) ++ (l.dropWhile (fun i => !(classifier i))).take 1

/-- Embedding of `Filter._process_event` over an event with `n` raw frames, where
`classifier i` is the animal-filter verdict on frame `i`.  For
`detector_fraction <= 0` the source indexes `frames[n // 2]` unconditionally, so
the embedding returns `none` when that access is out of bounds; otherwise it
returns the keep/discard verdict together with the list of frame indices the
classifier was invoked on. -/
def process_event (classifier : Nat → Bool) (n : Nat) (detector_fraction : Rat) :
    Option (Bool × List Nat) :=
  let middle_idx := n / 2
  if detector_fraction ≤ 0 then
    if middle_idx < n then some (classifier middle_idx, [middle_idx]) else none
  else
    let indices := selected_indices n detector_fraction
    let sorted := List.insertionSort
      (fun i j => nat_dist middle_idx i ≤ nat_dist middle_idx j) indices
    some (spiral classifier sorted)

/-! Helper lemmas. -/

theorem label_range_getElem? (v : Label) (a b : Nat) (l : List LabelledFrame) (j : Nat) :
    (label_range v a b l)[j]? =
      if a ≤ j ∧ j < b then l[j]?.map (set_label v) else l[j]? := by
  simp only [label_range, List.getElem?_map, List.getElem?_enum]
  cases l[j]? with
  | none => simp only [Option.map_none']; split <;> rfl
  | some fr =>
    simp only [Option.map_some']
    by_cases hc : a ≤ j ∧ j < b
    · rw [if_pos hc, if_pos hc]
    · rw [if_neg hc, if_neg hc]

theorem label_range_length (v : Label) (a b : Nat) (l : List LabelledFrame) :
    (label_range v a b l).length = l.length := by
  simp [label_range]

theorem unknown_frames_getElem? (n j : Nat) :
    (unknown_frames n)[j]? =
      if j < n then
        some { frame := j, index := j, priority := 0, label := Label.UNKNOWN,
               motion_status := MotionStatus.UNKNOWN }
      else none := by
  simp only [unknown_frames, List.getElem?_map]
  by_cases h : j < n
  · rw [List.getElem?_range h, if_pos h, Option.map_some']
  · rw [List.getElem?_eq_none (by simpa using Nat.le_of_not_lt h), if_neg h, Option.map_none']

theorem unknown_frames_length (n : Nat) : (unknown_frames n).length = n := by
  simp [unknown_frames]

/-! Claim theorems. -/

/-- C1: the spec says that, with every returned frame subsequently labelled,
`get_highest_priority` returns the unlabelled MOTION frames in decreasing priority
order and `None` once all frames are labelled.  On the sequence of MOTION frames
with priorities `[5,4,3,6,9,2,1]` the code indeed returns frames of priority
`[9,6,5,4,3,2,1]` (indices `[4,3,0,1,2,5,6]`) in the first 7 calls, but the 8th
call returns the already-labelled frame at index 0 again (its priority is -1 and
its motion status is still MOTION, so the `STILL` test does not fire) instead of
`None`: the code contradicts the termination assumption of its own caller
`_process_queue` (`while frame:`) and of the repository's motion-queue tests. -/
theorem claim_c1_eval :
    (run_calls 8 (motion_frames_of_priorities [5, 4, 3, 6, 9, 2, 1])).1 =
      [some 4, some 3, some 0, some 1, some 2, some 5, some 6, some 0]
  ∧ (run_calls 8 (motion_frames_of_priorities [5, 4, 3, 6, 9, 2, 1])).1 ≠
      [some 4, some 3, some 0, some 1, some 2, some 5, some 6, none] := by
  exact ⟨by decide, by decide⟩

/-- C2 counterexample: `switch_stream` does not reset the byte-written counter.
In a buffer state whose counter is 5, the counter still reads 5 after
`switch_stream`, refuting the claim that it is reset to 0. -/
theorem claim_c2_counterexample :
    (VideoRAMBuffer.switch_stream
      { active_stream := [7, 7], inactive_stream := [9], bytes_written := 5 }).bytes_written ≠ 0 := by
  decide

/-- C2 (amended): after `switch_stream`, subsequent `write` calls append to the
buffer that was previously inactive, the contents of the buffer that becomes
inactive are left unchanged until it is flushed or truncated, and the cumulative
byte-written counter is carried over unchanged (the code never resets it). -/
theorem claim_c2_thm (b : VideoRAMBuffer) (buf : List Nat) :
    (b.switch_stream.write buf).active_stream = b.inactive_stream ++ buf
  ∧ (b.switch_stream.write buf).inactive_stream = b.active_stream
  ∧ b.switch_stream.active_stream = b.inactive_stream
  ∧ b.switch_stream.inactive_stream = b.active_stream
  ∧ b.switch_stream.bytes_written = b.bytes_written
  ∧ (b.switch_stream.write buf).bytes_written = b.bytes_written + buf.length :=
  ⟨rfl, rfl, rfl, rfl, rfl, rfl⟩

/-- C8: on a sequence of `n` UNKNOWN frames, `label_as_animal` with smoothing
length `smoothing_len` at index `idx` labels exactly the frames within
`smoothing_len` positions of `idx` (clamped to the sequence bounds) as ANIMAL and
leaves every other frame UNKNOWN; in particular, labelling index 3 with
`smoothing_len = 1` in a 7-frame sequence yields labels ANIMAL exactly at
indices 2, 3, 4. -/
theorem claim_c8_thm (n smoothing_len idx : Nat) (h : idx < n) :
    (∀ j, j < n →
      labelAt (label_as_animal smoothing_len idx (unknown_frames n)) j =
        some (if idx ≤ j + smoothing_len ∧ j ≤ idx + smoothing_len
              then Label.ANIMAL else Label.UNKNOWN))
  ∧ (label_as_animal 1 3 (unknown_frames 7)).map LabelledFrame.label =
      [Label.UNKNOWN, Label.UNKNOWN, Label.ANIMAL, Label.ANIMAL, Label.ANIMAL,
       Label.UNKNOWN, Label.UNKNOWN] := by
  constructor
  · intro j hj
    unfold labelAt label_as_animal
    rw [label_range_getElem?, unknown_frames_length, unknown_frames_getElem?]
    by_cases hc : idx ≤ j + smoothing_len ∧ j ≤ idx + smoothing_len
    · have hc2 : idx - smoothing_len ≤ j ∧ j < min (idx + smoothing_len) n + 1 := by omega
      rw [if_pos hc2, if_pos hj, if_pos hc, Option.map_some']
      rfl
    · have hc2 : ¬(idx - smoothing_len ≤ j ∧ j < min (idx + smoothing_len) n + 1) := by omega
      rw [if_neg hc2, if_pos hj, if_neg hc, Option.map_some']
  · decide

/-- C8 witness: the concrete instance from the claim, obtained by applying the
theorem at `n = 7`, `smoothing_len = 1`, `idx = 3`. -/
theorem claim_c8_witness :
    (label_as_animal 1 3 (unknown_frames 7)).map LabelledFrame.label =
      [Label.UNKNOWN, Label.UNKNOWN, Label.ANIMAL, Label.ANIMAL, Label.ANIMAL,
       Label.UNKNOWN, Label.UNKNOWN] :=
  (claim_c8_thm 7 1 3 (by decide)).2

/-- C9: for a positive framerate, the normalized cutoff passed to the filter
design routine always lies strictly in `(0, 1)`: the raw value
`wn = cutoff / (framerate / 2)` is kept when already in range (with no error
diagnostic), is replaced by `1e-10` when `wn <= 0`, and by `1 - 1e-10` when
`wn >= 1`; the error-diagnostic flag is set exactly in the two out-of-range
cases. -/
theorem claim_c9_thm (iir_cutoff_hz framerate : Rat) (hf : 0 < framerate) :
    (0 < (motion_filter_wn iir_cutoff_hz framerate).1
      ∧ (motion_filter_wn iir_cutoff_hz framerate).1 < 1)
  ∧ (iir_cutoff_hz / (framerate / 2) ≤ 0 →
      motion_filter_wn iir_cutoff_hz framerate = (1 / 10 ^ 10, true))
  ∧ (1 ≤ iir_cutoff_hz / (framerate / 2) →
      motion_filter_wn iir_cutoff_hz framerate = (1 - 1 / 10 ^ 10, true))
  ∧ ((motion_filter_wn iir_cutoff_hz framerate).2 = true ↔
      (iir_cutoff_hz / (framerate / 2) ≤ 0 ∨ 1 ≤ iir_cutoff_hz / (framerate / 2))) := by
  unfold motion_filter_wn
  split_ifs with h1 h2
  · exact ⟨⟨by norm_num, by norm_num⟩, fun _ => rfl,
      fun hc => absurd (le_trans hc h1) (by norm_num), by simp [h1]⟩
  · exact ⟨⟨by norm_num, by norm_num⟩, fun hc => absurd (le_trans h2 hc) (by norm_num),
      fun _ => rfl, by simp [h2]⟩
  · refine ⟨⟨lt_of_not_le h1, lt_of_not_le h2⟩, fun hc => absurd hc h1,
      fun hc => absurd hc h2, by simp [h1, h2]⟩

/-- C9 witness: a concrete in-range instance (`cutoff = 1`, `framerate = 20`),
obtained by applying the theorem. -/
theorem claim_c9_witness :
    (0 : Rat) < 20 ∧
      (0 < (motion_filter_wn 1 20).1 ∧ (motion_filter_wn 1 20).1 < 1) :=
  ⟨by norm_num, (claim_c9_thm 1 20 (by norm_num)).1⟩

/-- C10: with `detector_fraction <= 0` the event processor indexes the raw frame
list at `n / 2` unconditionally; in the total embedding the failure branch is
taken exactly when the event has no raw frames, and under the precondition
`1 <= n` the middle frame's verdict is returned. -/
theorem claim_c10_thm (classifier : Nat → Bool) (n : Nat) (f : Rat) (hf : f ≤ 0) :
    (process_event classifier n f = none ↔ n = 0)
  ∧ (1 ≤ n → process_event classifier n f = some (classifier (n / 2), [n / 2])) := by
  simp only [process_event, if_pos hf]
  by_cases h : n / 2 < n
  · constructor
    · rw [if_pos h]
      constructor
      · intro hc
        exact absurd hc (by simp)
      · intro hn
        omega
    · intro _
      rw [if_pos h]
  · have hn : n = 0 := by omega
    subst hn
    simp

/-- C10 witness: the failure branch is taken at the empty event, by applying the
theorem at `n = 0`, `f = 0`. -/
theorem claim_c10_witness :
    process_event (fun _ => false) 0 0 = none :=
  ((claim_c10_thm (fun _ => false) 0 0 (by norm_num)).1).mpr rfl

theorem iir2_filter_zero (s : IIR2Filter) (h1 : s.tap1 = 0) (h2 : s.tap2 = 0) :
    s.filter 0 = (0, s) := by
  cases s
  simp_all [IIR2Filter.filter]

theorem IIRFilter.foldl_zero (sts : List IIR2Filter) (pre : List IIR2Filter)
    (h : ∀ st ∈ sts, st.tap1 = 0 ∧ st.tap2 = 0) :
    sts.foldl
      (fun (acc : Rat × List IIR2Filter) st =>
        let o := st.filter acc.1
        (o.1, acc.2 ++ [o.2]))
      (0, pre) = (0, pre ++ sts) := by
  induction sts generalizing pre with
  | nil => simp
  | cons s rest ih =>
    have hs := h s (by simp)
    have hrest : ∀ st ∈ rest, st.tap1 = 0 ∧ st.tap2 = 0 := fun st hst => h st (by simp [hst])
    simp only [List.foldl_cons, iir2_filter_zero s hs.1 hs.2]
    rw [ih (pre ++ [s]) hrest]
    simp

theorem iir_filter_zero (f : IIRFilter) (h : zero_taps f) : f.filter 0 = (0, f) := by
  unfold IIRFilter.filter
  rw [IIRFilter.foldl_zero f.iir2filters [] h]
  simp

theorem MotionFilter.run_raw_sq_small (mf : MotionFilter) (motion_frame : List (Int × Int))
    (hx : zero_taps mf.x_iir_filter) (hy : zero_taps mf.y_iir_filter)
    (hS : 0 < mf.threshold_small)
    (hsmall : ∀ v ∈ motion_frame, v.1 ^ 2 + v.2 ^ 2 < mf.threshold_small ^ 2) :
    mf.run_raw_sq motion_frame = (0, mf) := by
  unfold MotionFilter.run_raw_sq
  have hfilt : motion_frame.map (fun v =>
      if mf.threshold_small < 0 ∨ mf.threshold_small ^ 2 < v.1 ^ 2 + v.2 ^ 2 then v
      else ((0, 0) : Int × Int)) = motion_frame.map (fun _ => ((0, 0) : Int × Int)) := by
    apply List.map_congr_left
    intro v hv
    have h1 : ¬ mf.threshold_small < 0 := by omega
    have h2 : ¬ mf.threshold_small ^ 2 < v.1 ^ 2 + v.2 ^ 2 := not_lt.mpr (le_of_lt (hsmall v hv))
    simp [h1, h2]
  rw [hfilt]
  have hxsum : ((motion_frame.map (fun _ => ((0, 0) : Int × Int))).map Prod.fst).sum = 0 := by
    apply List.sum_eq_zero
    intro x hx2
    simp only [List.map_map, List.mem_map] at hx2
    obtain ⟨v, _, hv⟩ := hx2
    exact hv.symm
  have hysum : ((motion_frame.map (fun _ => ((0, 0) : Int × Int))).map Prod.snd).sum = 0 := by
    apply List.sum_eq_zero
    intro x hx2
    simp only [List.map_map, List.mem_map] at hx2
    obtain ⟨v, _, hv⟩ := hx2
    exact hv.symm
  simp only [hxsum, hysum, Int.cast_zero, iir_filter_zero mf.x_iir_filter hx,
    iir_filter_zero mf.y_iir_filter hy]
  norm_num

theorem MotionFilter.run_small (mf : MotionFilter) (motion_frame : List (Int × Int))
    (hx : zero_taps mf.x_iir_filter) (hy : zero_taps mf.y_iir_filter)
    (hS : 0 < mf.threshold_small) (hV : 0 < mf.threshold_sotv)
    (hsmall : ∀ v ∈ motion_frame, v.1 ^ 2 + v.2 ^ 2 < mf.threshold_small ^ 2) :
    mf.run motion_frame = (false, mf) := by
  unfold MotionFilter.run
  rw [MotionFilter.run_raw_sq_small mf motion_frame hx hy hS hsmall]
  have h1 : ¬ mf.threshold_sotv ≤ 0 := not_le.mpr hV
  have h2 : ¬ mf.threshold_sotv ^ 2 ≤ 0 := not_le.mpr (pow_pos hV 2)
  simp [h1, h2]

/-- C7: a freshly constructed motion filter (zero IIR taps, SOS coefficients
arbitrary) with positive `small_threshold` and positive `sotv_threshold`, fed any
sequence of motion-vector grids in which every vector has squared magnitude below
`small_threshold^2` (i.e. magnitude strictly below `small_threshold`, which
includes the all-zero grid), produces squared SoTV output exactly 0 for every
grid — so `run_raw` returns exactly 0.0 — and `run` returns false for every
grid. -/
theorem claim_c7_thm (mf : MotionFilter) (frames : List (List (Int × Int)))
    (hx : zero_taps mf.x_iir_filter) (hy : zero_taps mf.y_iir_filter)
    (hS : 0 < mf.threshold_small) (hV : 0 < mf.threshold_sotv)
    (hsmall : ∀ fr ∈ frames, ∀ v ∈ fr, v.1 ^ 2 + v.2 ^ 2 < mf.threshold_small ^ 2) :
    (mf.run_seq frames).1 = List.replicate frames.length 0
  ∧ (mf.run_seq frames).2.1 = List.replicate frames.length false := by
  induction frames with
  | nil => exact ⟨rfl, rfl⟩
  | cons fr rest ih =>
    have hfr : ∀ v ∈ fr, v.1 ^ 2 + v.2 ^ 2 < mf.threshold_small ^ 2 :=
      hsmall fr (by simp)
    have hrest : ∀ g ∈ rest, ∀ v ∈ g, v.1 ^ 2 + v.2 ^ 2 < mf.threshold_small ^ 2 :=
      fun g hg => hsmall g (by simp [hg])
    have hsq := MotionFilter.run_raw_sq_small mf fr hx hy hS hfr
    have hrun := MotionFilter.run_small mf fr hx hy hS hV hfr
    have ihr := ih hrest
    simp only [MotionFilter.run_seq, hsq, hrun, List.length_cons, List.replicate_succ]
    exact ⟨by rw [ihr.1], by rw [ihr.2]⟩

/-- C7 witness: a concrete fresh filter (`small_threshold = 10`,
`sotv_threshold = 300`, a single arbitrary SOS stage with zero taps) on a grid of
two sub-threshold vectors, obtained by applying the theorem. -/
theorem claim_c7_witness :
    (MotionFilter.run_seq
        { threshold_small := 10, threshold_sotv := 300,
          x_iir_filter := ⟨[⟨1, 2, 3, 1, 4, 5, 0, 0⟩]⟩,
          y_iir_filter := ⟨[⟨1, 2, 3, 1, 4, 5, 0, 0⟩]⟩ }
        [[(0, 0), (3, 4)]]).1 = List.replicate 1 0
  ∧ (MotionFilter.run_seq
        { threshold_small := 10, threshold_sotv := 300,
          x_iir_filter := ⟨[⟨1, 2, 3, 1, 4, 5, 0, 0⟩]⟩,
          y_iir_filter := ⟨[⟨1, 2, 3, 1, 4, 5, 0, 0⟩]⟩ }
        [[(0, 0), (3, 4)]]).2.1 = List.replicate 1 false := by
  have h := claim_c7_thm
    { threshold_small := 10, threshold_sotv := 300,
      x_iir_filter := ⟨[⟨1, 2, 3, 1, 4, 5, 0, 0⟩]⟩,
      y_iir_filter := ⟨[⟨1, 2, 3, 1, 4, 5, 0, 0⟩]⟩ }
    [[(0, 0), (3, 4)]]
    (by intro st hst; simp_all [zero_taps])
    (by intro st hst; simp_all [zero_taps])
    (by norm_num) (by norm_num)
    (by decide)
  simpa using h

theorem spiral_eq (classifier : Nat → Bool) (l : List Nat) :
    spiral classifier l = (l.any classifier, spiral_trace_spec classifier l) := by
  induction l with
  | nil => rfl
  | cons i rest ih =>
    by_cases hc : classifier i
    · simp [spiral, spiral_trace_spec, hc]
    · simp only [spiral, hc, if_neg, Bool.false_eq_true, not_false_eq_true, ih,
        spiral_trace_spec, List.any_cons, List.takeWhile_cons, List.dropWhile_cons,
        Bool.not_false, Bool.false_or]
      simp [hc]

theorem round_half_even_intCast (z : Int) : round_half_even (z : Rat) = z := by
  unfold round_half_even
  norm_num

theorem selected_indices_nine_one : selected_indices 9 1 = [0, 1, 2, 3, 4, 5, 6, 7, 8] := by
  have h1 : round_half_even ((9 : Rat) * 1) = 9 := by
    have : ((9 : Rat) * 1) = ((9 : Int) : Rat) := by norm_num
    rw [this, round_half_even_intCast]
  have h2 : np_linspace 0 ((9 : Rat) - 1) 9 =
      [((0 : Int) : Rat), ((1 : Int) : Rat), ((2 : Int) : Rat), ((3 : Int) : Rat),
       ((4 : Int) : Rat), ((5 : Int) : Rat), ((6 : Int) : Rat), ((7 : Int) : Rat),
       ((8 : Int) : Rat)] := by
    show (List.range 9).map (fun i => (0 : Rat) + i * (((9 : Rat) - 1) - 0) / (7 + 1)) = _
    rw [show List.range 9 = [0, 1, 2, 3, 4, 5, 6, 7, 8] from rfl]
    simp only [List.map]
    norm_num
  have hc : ((9 : Nat) : Rat) = (9 : Rat) := by norm_num
  unfold selected_indices
  rw [hc, h1, show ((9 : Int)).toNat = 9 from rfl, h2]
  simp only [List.map, round_half_even_intCast]
  rfl

theorem process_event_nine_one :
    process_event (fun i => i == 2) 9 1 = some (true, [4, 3, 5, 2]) := by
  have hnle : ¬ (1 : Rat) ≤ 0 := by norm_num
  simp only [process_event, if_neg hnle, selected_indices_nine_one]
  decide

/-- C3: for an event with `n >= 1` raw frames, `detector_fraction = 0` classifies
only the middle frame `n / 2` and returns its verdict; for a fraction in
`(0, 1]`, the verdict is "keep" exactly when some frame among the
`round(n * fraction)` linearly interpolated indices is classified positive, the
classifier is invoked on those indices in order of increasing distance from the
middle index (a stable sort, so ties keep the lower index first), stopping at the
first positive; and on the concrete event with `n = 9`, `fraction = 1` and index
2 the only positive, the classifier runs on indices `[4, 3, 5, 2]` only and the
result is "keep". -/
theorem claim_c3_thm (classifier : Nat → Bool) (n : Nat) (f : Rat)
    (hn : 1 ≤ n) (hf0 : 0 < f) (hf1 : f ≤ 1) :
    process_event classifier n 0 = some (classifier (n / 2), [n / 2])
  ∧ process_event classifier n f =
      some ((List.insertionSort (fun i j => nat_dist (n / 2) i ≤ nat_dist (n / 2) j)
               (selected_indices n f)).any classifier,
            spiral_trace_spec classifier
              (List.insertionSort (fun i j => nat_dist (n / 2) i ≤ nat_dist (n / 2) j)
                 (selected_indices n f)))
  ∧ List.Sorted (fun i j => nat_dist (n / 2) i ≤ nat_dist (n / 2) j)
      (List.insertionSort (fun i j => nat_dist (n / 2) i ≤ nat_dist (n / 2) j)
        (selected_indices n f))
  ∧ (List.insertionSort (fun i j => nat_dist (n / 2) i ≤ nat_dist (n / 2) j)
      (selected_indices n f)).Perm (selected_indices n f)
  ∧ process_event (fun i => i == 2) 9 1 = some (true, [4, 3, 5, 2]) := by
  have h2 : n / 2 < n := Nat.div_lt_self (by omega) (by omega)
  have hnle : ¬ f ≤ 0 := not_le.mpr hf0
  refine ⟨?_, ?_, ?_, List.perm_insertionSort _ _, process_event_nine_one⟩
  · simp only [process_event, if_pos (le_refl (0 : Rat)), if_pos h2]
  · simp only [process_event, if_neg hnle]
    rw [spiral_eq]
  · haveI : IsTotal Nat (fun i j => nat_dist (n / 2) i ≤ nat_dist (n / 2) j) :=
      ⟨fun a b => Nat.le_total _ _⟩
    haveI : IsTrans Nat (fun i j => nat_dist (n / 2) i ≤ nat_dist (n / 2) j) :=
      ⟨fun a b c hab hbc => le_trans hab hbc⟩
    exact List.sorted_insertionSort _ _

/-- C3 witness: the claim's concrete event (`n = 9`, `fraction = 1`, index 2 the
only positive), obtained by applying the theorem. -/
theorem claim_c3_witness :
    process_event (fun i => i == 2) 9 1 = some (true, [4, 3, 5, 2]) :=
  (claim_c3_thm (fun i => i == 2) 9 1 (by norm_num) (by norm_num) (by norm_num)).2.2.2.2

theorem find_index_none_iff (p : LabelledFrame → Bool) (l : List LabelledFrame) :
    find_index p l = none ↔ ∀ fr ∈ l, ¬ p fr := by
  induction l with
  | nil => simp [find_index]
  | cons fr rest ih =>
    by_cases hp : p fr
    · simp [find_index, hp]
    · simp only [find_index, if_neg hp, Option.map_eq_none', ih, List.mem_cons]
      constructor
      · intro h g hg
        rcases hg with hg | hg
        · subst hg; exact hp
        · exact h g hg
      · intro h g hg
        exact h g (Or.inr hg)

theorem find_index_some (p : LabelledFrame → Bool) (l : List LabelledFrame) (k : Nat)
    (h : find_index p l = some k) :
    (∃ fr, l[k]? = some fr ∧ p fr = true)
  ∧ (∀ m, m < k → ∀ fr, l[m]? = some fr → p fr = false) := by
  induction l generalizing k with
  | nil => simp [find_index] at h
  | cons fr rest ih =>
    by_cases hp : p fr
    · simp only [find_index, if_pos hp, Option.some.injEq] at h
      subst h
      exact ⟨⟨fr, by simp, hp⟩, fun m hm => by omega⟩
    · simp only [find_index, if_neg hp, Option.map_eq_some'] at h
      obtain ⟨k0, hk0, hk⟩ := h
      subst hk
      obtain ⟨⟨g, hg, hpg⟩, hmin⟩ := ih k0 hk0
      refine ⟨⟨g, by simpa using hg, hpg⟩, ?_⟩
      intro m hm fr2 hfr2
      match m with
      | 0 =>
        simp only [List.getElem?_cons_zero, Option.some.injEq] at hfr2
        subst hfr2
        exact Bool.not_eq_true _ ▸ (by simpa using hp)
      | m + 1 =>
        simp only [List.getElem?_cons_succ] at hfr2
        exact hmin m (by omega) fr2 hfr2

theorem find_index_exists (p : LabelledFrame → Bool) (l : List LabelledFrame)
    (h : ∃ fr ∈ l, p fr) : ∃ k, find_index p l = some k := by
  cases hfi : find_index p l with
  | none =>
    obtain ⟨fr, hmem, hp⟩ := h
    exact absurd hp ((find_index_none_iff p l).mp hfi fr hmem)
  | some k => exact ⟨k, rfl⟩

theorem get_first_animal_le (l : List LabelledFrame) (j : Nat) (fr : LabelledFrame)
    (hj : l[j]? = some fr) (ha : fr.label = Label.ANIMAL) :
    get_first_animal_index l ≤ j := by
  have hmem : fr ∈ l := List.getElem?_mem hj
  obtain ⟨k, hk⟩ := find_index_exists (fun g => g.label == Label.ANIMAL) l
    ⟨fr, hmem, by simp [ha]⟩
  have hspec := find_index_some _ l k hk
  unfold get_first_animal_index
  rw [hk]
  simp only [Option.getD_some]
  by_contra hlt
  have := hspec.2 j (by omega) fr hj
  simp [ha] at this

theorem get_first_animal_spec (l : List LabelledFrame)
    (h : ∃ fr ∈ l, fr.label = Label.ANIMAL) :
    ∃ fr, l[get_first_animal_index l]? = some fr ∧ fr.label = Label.ANIMAL := by
  obtain ⟨fr0, hmem, ha0⟩ := h
  obtain ⟨k, hk⟩ := find_index_exists (fun g => g.label == Label.ANIMAL) l
    ⟨fr0, hmem, by simp [ha0]⟩
  obtain ⟨⟨fr, hfr, hp⟩, _⟩ := find_index_some _ l k hk
  refine ⟨fr, ?_, by simpa using hp⟩
  unfold get_first_animal_index
  rw [hk]
  simpa using hfr

theorem get_first_animal_of_no_animal (l : List LabelledFrame)
    (h : ∀ fr ∈ l, fr.label ≠ Label.ANIMAL) : get_first_animal_index l = 0 := by
  unfold get_first_animal_index
  rw [(find_index_none_iff _ l).mpr (fun fr hfr => by simp [h fr hfr])]
  rfl

theorem get_last_animal_of_no_animal (l : List LabelledFrame)
    (h : ∀ fr ∈ l, fr.label ≠ Label.ANIMAL) : get_last_animal_index l = l.length := by
  unfold get_last_animal_index
  rw [(find_index_none_iff _ l.reverse).mpr
    (fun fr hfr => by simp [h fr (List.mem_reverse.mp hfr)])]

theorem get_last_animal_ge (l : List LabelledFrame) (j : Nat) (fr : LabelledFrame)
    (hj : l[j]? = some fr) (ha : fr.label = Label.ANIMAL) :
    j ≤ get_last_animal_index l := by
  have hjlt : j < l.length := (List.getElem?_eq_some.mp hj).1
  have hmem : fr ∈ l.reverse := List.mem_reverse.mpr (List.getElem?_mem hj)
  obtain ⟨k, hk⟩ := find_index_exists (fun g => g.label == Label.ANIMAL) l.reverse
    ⟨fr, hmem, by simp [ha]⟩
  have hspec := find_index_some _ l.reverse k hk
  have hrev : l.reverse[l.length - 1 - j]? = some fr := by
    rw [List.getElem?_reverse (by omega)]
    rw [show l.length - 1 - (l.length - 1 - j) = j from by omega]
    exact hj
  unfold get_last_animal_index
  rw [hk]
  show j ≤ l.length - 1 - k
  by_contra hgt
  have hkj : l.length - 1 - j < k := by omega
  have := hspec.2 (l.length - 1 - j) hkj fr hrev
  simp [ha] at this

theorem get_last_animal_spec (l : List LabelledFrame)
    (h : ∃ fr ∈ l, fr.label = Label.ANIMAL) :
    ∃ fr, l[get_last_animal_index l]? = some fr ∧ fr.label = Label.ANIMAL := by
  obtain ⟨fr0, hmem, ha0⟩ := h
  obtain ⟨k, hk⟩ := find_index_exists (fun g => g.label == Label.ANIMAL) l.reverse
    ⟨fr0, List.mem_reverse.mpr hmem, by simp [ha0]⟩
  obtain ⟨⟨fr, hfr, hp⟩, _⟩ := find_index_some _ l.reverse k hk
  have hklt : k < l.length := by
    have := (List.getElem?_eq_some.mp hfr).1
    simpa using this
  refine ⟨fr, ?_, by simpa using hp⟩
  unfold get_last_animal_index
  rw [hk]
  show l[l.length - 1 - k]? = some fr
  rw [List.getElem?_reverse (by omega)] at hfr
  exact hfr

theorem set_label_idem (v : Label) (fr : LabelledFrame) :
    set_label v (set_label v fr) = set_label v fr := rfl

theorem add_context_getElem? (context_len : Nat) (l : List LabelledFrame) (j : Nat) :
    (add_context context_len l)[j]? =
      if (get_first_animal_index l - context_len ≤ j ∧ j < get_first_animal_index l)
        ∨ (get_last_animal_index l + 1 ≤ j
            ∧ j < min (get_last_animal_index l + context_len) l.length)
      then l[j]?.map (set_label Label.CONTEXT)
      else l[j]? := by
  unfold add_context
  rw [label_range_getElem?, label_range_length, label_range_getElem?]
  by_cases hT : get_last_animal_index l + 1 ≤ j
      ∧ j < min (get_last_animal_index l + context_len) l.length
  · rw [if_pos hT]
    by_cases hH : get_first_animal_index l - context_len ≤ j ∧ j < get_first_animal_index l
    · rw [if_pos hH, if_pos (Or.inl hH)]
      cases l[j]? <;> rfl
    · rw [if_neg hH, if_pos (Or.inr hT)]
  · rw [if_neg hT]
    by_cases hH : get_first_animal_index l - context_len ≤ j ∧ j < get_first_animal_index l
    · rw [if_pos hH, if_pos (Or.inl hH)]
    · rw [if_neg hH, if_neg (by tauto)]

/-- C6 counterexample: with labels `[ANIMAL, EMPTY, EMPTY, EMPTY]` and
`context_len = 2`, at least 2 non-ANIMAL frames follow the last ANIMAL index 0,
so the claim predicts that both index 1 and index 2 become CONTEXT; the code
labels only index 1 (the tail slice is `frames[last + 1 : min(last + 2, len)]`,
one frame short). -/
theorem claim_c6_counterexample :
    (add_context 2 (frames_of_labels
        [Label.ANIMAL, Label.EMPTY, Label.EMPTY, Label.EMPTY])).map LabelledFrame.label =
      [Label.ANIMAL, Label.CONTEXT, Label.EMPTY, Label.EMPTY]
  ∧ (add_context 2 (frames_of_labels
        [Label.ANIMAL, Label.EMPTY, Label.EMPTY, Label.EMPTY])).map LabelledFrame.label ≠
      [Label.ANIMAL, Label.CONTEXT, Label.CONTEXT, Label.EMPTY] :=
  ⟨by decide, by decide⟩

/-- C6 (amended): for a sequence with at least one ANIMAL frame, `add_context`
relabels as CONTEXT exactly the frames at positions `[first - context_len, first)`
— i.e. the `min(context_len, first)` frames immediately before the first ANIMAL
index — and the frames at positions `[last + 1, min(last + context_len, length))`
— i.e. at most `context_len - 1` frames immediately after the last ANIMAL index
(exactly `context_len - 1` of them when at least that many frames follow) — and
leaves every other label unchanged. -/
theorem claim_c6_thm (context_len : Nat) (l : List LabelledFrame)
    (hA : ∃ fr ∈ l, fr.label = Label.ANIMAL) (j : Nat) (fr : LabelledFrame)
    (hj : l[j]? = some fr) :
    labelAt (add_context context_len l) j =
      some (if (get_first_animal_index l - context_len ≤ j ∧ j < get_first_animal_index l)
        ∨ (get_last_animal_index l + 1 ≤ j
            ∧ j < min (get_last_animal_index l + context_len) l.length)
      then Label.CONTEXT else fr.label) := by
  unfold labelAt
  rw [add_context_getElem?]
  split
  · rw [hj]
    rfl
  · rw [hj]
    rfl

/-- C6 witness: at the concrete input of the counterexample, index 1 (the single
frame the code does relabel) is CONTEXT, by applying the amended theorem. -/
theorem claim_c6_witness :
    labelAt (add_context 2 (frames_of_labels
      [Label.ANIMAL, Label.EMPTY, Label.EMPTY, Label.EMPTY])) 1 = some Label.CONTEXT := by
  have h := claim_c6_thm 2
    (frames_of_labels [Label.ANIMAL, Label.EMPTY, Label.EMPTY, Label.EMPTY])
    (by decide) 1
    { frame := 1, index := 1, priority := 0, label := Label.EMPTY,
      motion_status := MotionStatus.UNKNOWN }
    (by decide)
  rw [h]
  decide

theorem add_context_of_no_animal (context_len : Nat) (l : List LabelledFrame)
    (h : ∀ fr ∈ l, fr.label ≠ Label.ANIMAL) : add_context context_len l = l := by
  apply List.ext_getElem?
  intro j
  rw [add_context_getElem?, get_first_animal_of_no_animal l h,
    get_last_animal_of_no_animal l h]
  rw [if_neg]
  intro hc
  rcases hc with ⟨_, h2⟩ | ⟨h1, h2⟩ <;> omega

theorem add_context_animal_preserved (context_len : Nat) (l : List LabelledFrame)
    (j : Nat) (fr : LabelledFrame) (hj : l[j]? = some fr)
    (ha : fr.label = Label.ANIMAL) :
    (add_context context_len l)[j]? = some fr := by
  rw [add_context_getElem?, if_neg, hj]
  have h1 := get_first_animal_le l j fr hj ha
  have h2 := get_last_animal_ge l j fr hj ha
  intro hc
  rcases hc with ⟨_, hlt⟩ | ⟨hge, _⟩ <;> omega

/-- C4: for a sequence whose labels come out of the classification and
gap-closing stages (so no frame is yet CONTEXT), the queue's output after
`add_context` consists of exactly the ANIMAL-or-CONTEXT frames, in their original
order (the filtered list is a sublist of the sequence), followed by a single
`None` sentinel — and when the processed sequence has no ANIMAL frame at all,
nothing is emitted, not even the sentinel. -/
theorem claim_c4_thm (context_len : Nat) (l : List LabelledFrame)
    (hnc : ∀ fr ∈ l, fr.label ≠ Label.CONTEXT) :
    ((∃ fr ∈ add_context context_len l, fr.label = Label.ANIMAL) →
      sequence_output (add_context context_len l) =
        (get_animal_or_context_frames (add_context context_len l)).map
          (fun fr => some fr.frame) ++ [none])
  ∧ ((∀ fr ∈ add_context context_len l, fr.label ≠ Label.ANIMAL) →
      sequence_output (add_context context_len l) = [])
  ∧ List.Sublist (get_animal_or_context_frames (add_context context_len l))
      (add_context context_len l) := by
  refine ⟨?_, ?_, List.filter_sublist _⟩
  · intro ⟨fr, hmem, hfr⟩
    have hin : fr ∈ get_animal_or_context_frames (add_context context_len l) :=
      List.mem_filter.mpr ⟨hmem, by simp [hfr]⟩
    have hne : get_animal_or_context_frames (add_context context_len l) ≠ [] :=
      List.ne_nil_of_mem hin
    have hlen : 0 < ((get_animal_or_context_frames (add_context context_len l)).map
        (fun fr => some fr.frame)).length := by
      rw [List.length_map]
      exact List.length_pos.mpr hne
    unfold sequence_output
    rw [if_pos hlen]
  · intro hnoA
    have hnoA0 : ∀ fr ∈ l, fr.label ≠ Label.ANIMAL := by
      intro fr hmem ha
      obtain ⟨j, hj⟩ := List.mem_iff_getElem?.mp hmem
      exact hnoA fr (List.getElem?_mem (add_context_animal_preserved context_len l j fr hj ha)) ha
    rw [add_context_of_no_animal context_len l hnoA0]
    have hfilt : get_animal_or_context_frames l = [] := by
      apply List.filter_eq_nil_iff.mpr
      intro fr hmem
      simp only [decide_eq_true_eq, not_or]
      exact ⟨fun h => hnoA0 fr hmem h, fun h => hnc fr hmem h⟩
    unfold sequence_output
    rw [hfilt]
    rfl

/-- C4 witness: a concrete three-frame sequence with one ANIMAL frame (labels
`[EMPTY, ANIMAL, EMPTY]`, `context_len = 1`), obtained by applying the theorem:
the head-context frame is relabelled CONTEXT and the output is the CONTEXT and
ANIMAL frames followed by the sentinel. -/
theorem claim_c4_witness :
    sequence_output (add_context 1 (frames_of_labels
        [Label.EMPTY, Label.ANIMAL, Label.EMPTY])) =
      (get_animal_or_context_frames (add_context 1 (frames_of_labels
        [Label.EMPTY, Label.ANIMAL, Label.EMPTY]))).map (fun fr => some fr.frame) ++ [none] := by
  have h := claim_c4_thm 1 (frames_of_labels [Label.EMPTY, Label.ANIMAL, Label.EMPTY])
    (by decide)
  exact h.1 (by decide)

theorem labelAt_label_range (v : Label) (a b : Nat) (l : List LabelledFrame) (j : Nat) :
    labelAt (label_range v a b l) j =
      if a ≤ j ∧ j < b then (labelAt l j).map (fun _ => v) else labelAt l j := by
  unfold labelAt
  rw [label_range_getElem?]
  split <;> cases l[j]? <;> rfl

theorem label_range_of_le (v : Label) (a b : Nat) (l : List LabelledFrame) (h : b ≤ a) :
    label_range v a b l = l := by
  apply List.ext_getElem?
  intro j
  rw [label_range_getElem?, if_neg (by omega)]

theorem promoted_before_iff (sl : Nat) (l : List LabelledFrame) (bound j : Nat) :
    promoted_before sl l bound j = true ↔
      ∃ b, b < bound ∧ j < b ∧ is_animal_at l b = true ∧
        ∃ a, a < j ∧ is_animal_at l a = true ∧
          (∀ k, k < b → a < k → is_gap_at l k = true) ∧
          b - a - 1 ≤ 2 * sl := by
  unfold promoted_before
  simp only [List.any_eq_true, List.all_eq_true, List.mem_range, Bool.and_eq_true,
    decide_eq_true_eq, Bool.or_eq_true, Bool.not_eq_eq_eq_not, Bool.not_true,
    decide_eq_false_iff_not]
  constructor
  · rintro ⟨b, hb, ⟨⟨hjb, hanb⟩, a, ha, ⟨hana, hall⟩, hlen⟩⟩
    refine ⟨b, hb, hjb, hanb, a, ha, hana, ?_, hlen⟩
    intro k hk hak
    rcases hall k hk with h | h
    · omega
    · exact h
  · rintro ⟨b, hb, hjb, hanb, a, ha, hana, hall, hlen⟩
    refine ⟨b, hb, ⟨⟨hjb, hanb⟩, a, ha, ⟨hana, ?_⟩, hlen⟩⟩
    intro k hk
    by_cases hak : a < k
    · exact Or.inr (hall k hk hak)
    · exact Or.inl (by omega)

theorem promoted_before_ge_false (sl : Nat) (l : List LabelledFrame) (bound j : Nat)
    (h : bound ≤ j + 1) : promoted_before sl l bound j = false := by
  cases hp : promoted_before sl l bound j
  · rfl
  · exfalso
    obtain ⟨b, hb, hjb, -⟩ := (promoted_before_iff sl l bound j).mp hp
    omega

theorem is_animal_at_some (l : List LabelledFrame) (j : Nat) (fr : LabelledFrame)
    (h : l[j]? = some fr) : is_animal_at l j = (fr.label == Label.ANIMAL) := by
  unfold is_animal_at
  rw [h]

theorem is_gap_at_some (l : List LabelledFrame) (j : Nat) (fr : LabelledFrame)
    (h : l[j]? = some fr) :
    is_gap_at l j = (fr.label == Label.EMPTY || fr.label == Label.UNKNOWN) := by
  unfold is_gap_at
  rw [h]

theorem is_animal_at_not_gap (l : List LabelledFrame) (j : Nat)
    (h : is_animal_at l j = true) : is_gap_at l j = false := by
  unfold is_animal_at at h
  unfold is_gap_at
  cases hj : l[j]? with
  | none => rfl
  | some fr =>
    rw [hj] at h
    have : fr.label = Label.ANIMAL := by simpa using h
    simp [this]

theorem promoted_before_succ_iff (sl : Nat) (l0 : List LabelledFrame) (i j : Nat) :
    promoted_before sl l0 (i + 1) j = true ↔
      (promoted_before sl l0 i j = true ∨
        (j < i ∧ is_animal_at l0 i = true ∧
          ∃ a, a < j ∧ is_animal_at l0 a = true ∧
            (∀ k, k < i → a < k → is_gap_at l0 k = true) ∧ i - a - 1 ≤ 2 * sl)) := by
  rw [promoted_before_iff, promoted_before_iff]
  constructor
  · rintro ⟨b, hb, hjb, hanb, a, ha, hana, hall, hlen⟩
    by_cases hbi : b = i
    · subst hbi
      exact Or.inr ⟨hjb, hanb, a, ha, hana, hall, hlen⟩
    · exact Or.inl ⟨b, by omega, hjb, hanb, a, ha, hana, hall, hlen⟩
  · rintro (⟨b, hb, hjb, hanb, a, ha, hana, hall, hlen⟩ | ⟨hji, hani, a, ha, hana, hall, hlen⟩)
    · exact ⟨b, by omega, hjb, hanb, a, ha, hana, hall, hlen⟩
    · exact ⟨i, by omega, hji, hani, a, ha, hana, hall, hlen⟩

theorem close_gaps_go_succ (sl fuel i : Nat) (la : Option Nat) (gap : Nat)
    (l : List LabelledFrame) :
    close_gaps_go sl (fuel + 1) i la gap l =
      match l[i]? with
      | none => l
      | some fr =>
        if fr.label = Label.ANIMAL then
          close_gaps_go sl fuel (i + 1) (some i) 0
            (if gap ≤ sl * 2 then label_range Label.ANIMAL (i - gap) i l else l)
        else if fr.label = Label.EMPTY ∨ fr.label = Label.UNKNOWN then
          close_gaps_go sl fuel (i + 1) la (if la.isSome then gap + 1 else gap) l
        else close_gaps_go sl fuel (i + 1) la gap l := rfl

theorem close_gaps_go_spec (sl : Nat) (l0 : List LabelledFrame)
    (hl : ∀ fr ∈ l0, fr.label = Label.ANIMAL ∨ fr.label = Label.EMPTY
            ∨ fr.label = Label.UNKNOWN) :
    ∀ (fuel i : Nat) (la : Option Nat) (gap : Nat) (l : List LabelledFrame),
      fuel + i = l0.length →
      l.length = l0.length →
      (∀ j, i ≤ j → l[j]? = l0[j]?) →
      (∀ j, j < i → labelAt l j =
        (if promoted_before sl l0 i j = true then some Label.ANIMAL else labelAt l0 j)) →
      (match la with
       | none => gap = 0 ∧ ∀ j, j < i → is_animal_at l0 j = false
       | some a => a < i ∧ is_animal_at l0 a = true ∧
           (∀ j, a < j → j < i → is_animal_at l0 j = false) ∧ gap = i - a - 1) →
      ∀ j, labelAt (close_gaps_go sl fuel i la gap l) j =
        (if promoted_before sl l0 l0.length j = true then some Label.ANIMAL
         else labelAt l0 j) := by
  intro fuel
  induction fuel with
  | zero =>
    intro i la gap l hfi hlen hsuf hproc hstate j
    show labelAt l j = _
    by_cases hj : j < i
    · have := hproc j hj
      rwa [show i = l0.length from by omega] at this
    · have h1 : labelAt l j = none := by
        unfold labelAt
        rw [List.getElem?_eq_none (by omega)]
        rfl
      have h2 : labelAt l0 j = none := by
        unfold labelAt
        rw [List.getElem?_eq_none (by omega)]
        rfl
      rw [h1, h2, promoted_before_ge_false sl l0 l0.length j (by omega)]
      rfl
  | succ fuel ih =>
    intro i la gap l hfi hlen hsuf hproc hstate j
    have hiln : i < l0.length := by omega
    obtain ⟨fr, hfr0⟩ : ∃ fr, l0[i]? = some fr := ⟨_, List.getElem?_eq_getElem hiln⟩
    have hfrl : l[i]? = some fr := by rw [hsuf i (le_refl i)]; exact hfr0
    have hfrmem : fr ∈ l0 := List.getElem?_mem hfr0
    have hsome_l : ∀ k, k < l0.length → ∃ g, l[k]? = some g := by
      intro k hk
      exact ⟨_, List.getElem?_eq_getElem (by omega)⟩
    have hgap_of_not_animal : ∀ k g, l0[k]? = some g → is_animal_at l0 k = false →
        is_gap_at l0 k = true := by
      intro k g hkg hna
      rw [is_animal_at_some l0 k g hkg] at hna
      rw [is_gap_at_some l0 k g hkg]
      rcases hl g (List.getElem?_mem hkg) with h | h | h
      · simp [h] at hna
      · simp [h]
      · simp [h]
    rw [close_gaps_go_succ, hfrl]
    dsimp only
    have hcase := hl fr hfrmem
    by_cases hA : fr.label = Label.ANIMAL
    · -- the current frame is ANIMAL
      rw [if_pos hA]
      have hanim_i : is_animal_at l0 i = true := by
        rw [is_animal_at_some l0 i fr hfr0]
        simp [hA]
      have hpi_i_false : promoted_before sl l0 (i + 1) i = false :=
        promoted_before_ge_false sl l0 (i + 1) i (by omega)
      cases la with
      | none =>
        obtain ⟨hgap0, hnoani⟩ := hstate
        subst hgap0
        rw [if_pos (Nat.zero_le (sl * 2)), Nat.sub_zero, label_range_of_le _ i i l (le_refl i)]
        apply ih (i + 1) (some i) 0 l (by omega) hlen
          (fun k hk => hsuf k (by omega))
        · intro k hk
          by_cases hki : k < i
          · rw [hproc k hki]
            have heq : promoted_before sl l0 (i + 1) k = promoted_before sl l0 i k := by
              cases hpi : promoted_before sl l0 i k
              · cases hpi1 : promoted_before sl l0 (i + 1) k
                · rfl
                · exfalso
                  rcases (promoted_before_succ_iff sl l0 i k).mp hpi1 with h | ⟨_, _, a, hak, haa, _, _⟩
                  · rw [hpi] at h; exact Bool.false_ne_true h
                  · rw [hnoani a (by omega)] at haa; exact Bool.false_ne_true haa
              · exact (promoted_before_succ_iff sl l0 i k).mpr (Or.inl hpi)
            rw [heq]
          · have hki2 : k = i := by omega
            subst hki2
            rw [hpi_i_false]
            unfold labelAt
            rw [hfrl, hfr0]
            simp
        · exact ⟨by omega, hanim_i, fun k h1 h2 => by omega, by omega⟩
      | some a =>
        obtain ⟨hai, haa, hnomid, hgap⟩ := hstate
        have hall_gap : ∀ k, k < i → a < k → is_gap_at l0 k = true := by
          intro k hk hak
          obtain ⟨g, hg⟩ : ∃ g, l0[k]? = some g := ⟨_, List.getElem?_eq_getElem (by omega)⟩
          exact hgap_of_not_animal k g hg (hnomid k hak hk)
        by_cases hgsl : gap ≤ sl * 2
        · rw [if_pos hgsl]
          have hia : i - gap = a + 1 := by omega
          rw [hia]
          apply ih (i + 1) (some i) 0 (label_range Label.ANIMAL (a + 1) i l)
            (by omega) ((label_range_length _ _ _ _).trans hlen)
          · intro k hk
            rw [label_range_getElem?, if_neg (by omega)]
            exact hsuf k (by omega)
          · intro k hk
            rw [labelAt_label_range]
            by_cases hki : k = i
            · subst hki
              rw [if_neg (by omega), hpi_i_false]
              unfold labelAt
              rw [hfrl, hfr0]
              simp
            · have hki2 : k < i := by omega
              by_cases hmid : a + 1 ≤ k ∧ k < i
              · rw [if_pos hmid]
                obtain ⟨g, hg⟩ := hsome_l k (by omega)
                have hnew : promoted_before sl l0 (i + 1) k = true := by
                  apply (promoted_before_succ_iff sl l0 i k).mpr
                  exact Or.inr ⟨hki2, hanim_i, a, by omega, haa, hall_gap, by omega⟩
                rw [hnew]
                unfold labelAt
                rw [hg]
                rfl
              · have hka : k ≤ a := by omega
                rw [if_neg hmid, hproc k hki2]
                have heq : promoted_before sl l0 (i + 1) k = promoted_before sl l0 i k := by
                  cases hpi : promoted_before sl l0 i k
                  · cases hpi1 : promoted_before sl l0 (i + 1) k
                    · rfl
                    · exfalso
                      rcases (promoted_before_succ_iff sl l0 i k).mp hpi1 with h |
                        ⟨_, _, a2, ha2k, haa2, hall2, _⟩
                      · rw [hpi] at h; exact Bool.false_ne_true h
                      · have ha2a : a2 < a := by omega
                        have := hall2 a hai ha2a
                        rw [is_animal_at_not_gap l0 a haa] at this
                        exact Bool.false_ne_true this
                  · exact (promoted_before_succ_iff sl l0 i k).mpr (Or.inl hpi)
                rw [heq]
          · exact ⟨by omega, hanim_i, fun k h1 h2 => by omega, by omega⟩
        · rw [if_neg hgsl]
          apply ih (i + 1) (some i) 0 l (by omega) hlen
            (fun k hk => hsuf k (by omega))
          · intro k hk
            by_cases hki : k = i
            · subst hki
              rw [hpi_i_false]
              unfold labelAt
              rw [hfrl, hfr0]
              simp
            · have hki2 : k < i := by omega
              rw [hproc k hki2]
              have heq : promoted_before sl l0 (i + 1) k = promoted_before sl l0 i k := by
                cases hpi : promoted_before sl l0 i k
                · cases hpi1 : promoted_before sl l0 (i + 1) k
                  · rfl
                  · exfalso
                    rcases (promoted_before_succ_iff sl l0 i k).mp hpi1 with h |
                      ⟨_, _, a2, ha2k, haa2, hall2, hlen2⟩
                    · rw [hpi] at h; exact Bool.false_ne_true h
                    · rcases Nat.lt_trichotomy a2 a with h3 | h3 | h3
                      · have := hall2 a hai h3
                        rw [is_animal_at_not_gap l0 a haa] at this
                        exact Bool.false_ne_true this
                      · subst h3; omega
                      · have := hnomid a2 h3 (by omega)
                        rw [this] at haa2
                        exact Bool.false_ne_true haa2
                · exact (promoted_before_succ_iff sl l0 i k).mpr (Or.inl hpi)
              rw [heq]
          · exact ⟨by omega, hanim_i, fun k h1 h2 => by omega, by omega⟩
    · -- the current frame is EMPTY or UNKNOWN
      have hEU : fr.label = Label.EMPTY ∨ fr.label = Label.UNKNOWN := by tauto
      rw [if_neg hA, if_pos hEU]
      have hnai : is_animal_at l0 i = false := by
        rw [is_animal_at_some l0 i fr hfr0]
        rcases hEU with h | h <;> simp [h]
      have hpi_i_false : promoted_before sl l0 (i + 1) i = false :=
        promoted_before_ge_false sl l0 (i + 1) i (by omega)
      have hproc2 : ∀ k, k < i + 1 → labelAt l k =
          (if promoted_before sl l0 (i + 1) k = true then some Label.ANIMAL
           else labelAt l0 k) := by
        intro k hk
        by_cases hki : k = i
        · subst hki
          rw [hpi_i_false]
          unfold labelAt
          rw [hfrl, hfr0]
          simp
        · have hki2 : k < i := by omega
          rw [hproc k hki2]
          have heq : promoted_before sl l0 (i + 1) k = promoted_before sl l0 i k := by
            cases hpi : promoted_before sl l0 i k
            · cases hpi1 : promoted_before sl l0 (i + 1) k
              · rfl
              · exfalso
                rcases (promoted_before_succ_iff sl l0 i k).mp hpi1 with h | ⟨_, hani, -⟩
                · rw [hpi] at h; exact Bool.false_ne_true h
                · rw [hnai] at hani; exact Bool.false_ne_true hani
            · exact (promoted_before_succ_iff sl l0 i k).mpr (Or.inl hpi)
          rw [heq]
      cases la with
      | none =>
        obtain ⟨hgap0, hnoani⟩ := hstate
        subst hgap0
        apply ih (i + 1) none 0 l (by omega) hlen
          (fun k hk => hsuf k (by omega)) hproc2
        refine ⟨rfl, ?_⟩
        intro k hk
        by_cases hki : k = i
        · subst hki; exact hnai
        · exact hnoani k (by omega)
      | some a =>
        obtain ⟨hai, haa, hnomid, hgap⟩ := hstate
        apply ih (i + 1) (some a) (gap + 1) l (by omega) hlen
          (fun k hk => hsuf k (by omega)) hproc2
        refine ⟨by omega, haa, ?_, by omega⟩
        intro k h1 h2
        by_cases hki : k = i
        · subst hki; exact hnai
        · exact hnomid k h1 (by omega)

/-- C5: on a sequence whose labels come out of the classification stage (ANIMAL,
EMPTY or UNKNOWN; no CONTEXT yet), `close_gaps` relabels as ANIMAL exactly the
frames lying strictly inside a run of EMPTY/UNKNOWN frames delimited by ANIMAL
frames on both sides whose length is at most `2 * smoothing_len`, and leaves
every other label unchanged; in particular on labels
`[ANIMAL,EMPTY,EMPTY,ANIMAL,EMPTY,EMPTY,EMPTY,ANIMAL]` with `smoothing_len = 1`
indices 1 and 2 are promoted to ANIMAL while indices 4, 5, 6 remain EMPTY. -/
theorem claim_c5_thm (sl : Nat) (l : List LabelledFrame)
    (hl : ∀ fr ∈ l, fr.label ≠ Label.CONTEXT) :
    (∀ j fr, l[j]? = some fr →
      labelAt (close_gaps sl l) j =
        (if promoted sl l j = true then some Label.ANIMAL else some fr.label))
  ∧ (close_gaps 1 (frames_of_labels
      [Label.ANIMAL, Label.EMPTY, Label.EMPTY, Label.ANIMAL, Label.EMPTY, Label.EMPTY,
       Label.EMPTY, Label.ANIMAL])).map LabelledFrame.label =
      [Label.ANIMAL, Label.ANIMAL, Label.ANIMAL, Label.ANIMAL, Label.EMPTY, Label.EMPTY,
       Label.EMPTY, Label.ANIMAL] := by
  constructor
  · intro j fr hj
    have hl3 : ∀ g ∈ l, g.label = Label.ANIMAL ∨ g.label = Label.EMPTY
        ∨ g.label = Label.UNKNOWN := by
      intro g hg
      cases hlab : g.label
      · exact Or.inr (Or.inl rfl)
      · exact Or.inl rfl
      · exact Or.inr (Or.inr rfl)
      · exact absurd hlab (hl g hg)
    have hspec := close_gaps_go_spec sl l hl3 l.length 0 none 0 l (by omega) rfl
      (fun k _ => rfl) (fun k hk => absurd hk (by omega))
      ⟨rfl, fun k hk => absurd hk (by omega)⟩ j
    unfold close_gaps
    rw [hspec]
    have hlj : labelAt l j = some fr.label := by
      unfold labelAt
      rw [hj]
      rfl
    rw [hlj]
    rfl
  · decide

/-- C5 witness: the concrete sequence from the claim, obtained by applying the
theorem. -/
theorem claim_c5_witness :
    (close_gaps 1 (frames_of_labels
      [Label.ANIMAL, Label.EMPTY, Label.EMPTY, Label.ANIMAL, Label.EMPTY, Label.EMPTY,
       Label.EMPTY, Label.ANIMAL])).map LabelledFrame.label =
      [Label.ANIMAL, Label.ANIMAL, Label.ANIMAL, Label.ANIMAL, Label.EMPTY, Label.EMPTY,
       Label.EMPTY, Label.ANIMAL] :=
  (claim_c5_thm 1 (frames_of_labels
      [Label.ANIMAL, Label.EMPTY, Label.EMPTY, Label.ANIMAL, Label.EMPTY, Label.EMPTY,
       Label.EMPTY, Label.ANIMAL]) (by decide)).2
